import Mathlib

set_option maxRecDepth 8000

/-!
Verification of the manual-crop / rectification / enhancement core of the
hallo.pdf image toolkit.  Definitions are shallow embeddings of the source
functions in `src/components/PrivacyPolicy.tsx`, `src/components/ImageTools.tsx`,
`src/components/DigitalImageEnhancer.tsx` and
`src/workers/imageProcessor.worker.js`; coordinates and pixel channel values
are modelled as exact rationals, rotation-drag trigonometry as exact reals.
-/

/-- A 2-D point, as the `Point` interface of the source (display- or
source-space coordinates). -/
structure Point where
  x : ℚ
  y : ℚ
deriving DecidableEq

instance : Inhabited Point := ⟨⟨0, 0⟩⟩

/-- `handleImageLoad` (PrivacyPolicy.tsx / ImageTools.tsx): given that the
img/container refs are present (`hasRefs`) and the rendered width/height,
produce the initial quadrilateral: an axis-aligned rectangle covering the
central 80% × 80% of the display area, ordered TL, TR, BR, BL. -/
def handleImageLoad (hasRefs : Bool) (width height : ℚ) : Option (List Point) :=
  if hasRefs then
    let cropWidth := width * (8 / 10)
    let cropHeight := height * (8 / 10)
    let cropX := (width - cropWidth) / 2
    let cropY := (height - cropHeight) / 2
    some [⟨cropX, cropY⟩, ⟨cropX + cropWidth, cropY⟩,
          ⟨cropX + cropWidth, cropY + cropHeight⟩, ⟨cropX, cropY + cropHeight⟩]
  else none

/-- JavaScript `a?.width || fallback`: a missing or zero (falsy) displayed
dimension falls back to the source dimension. -/
def orFallback : Option ℚ → ℚ → ℚ
  | some w, fb => if w = 0 then fb else w
  | none, fb => fb

/-- The display-space → source-space mapping of `applyManualCrop`
(PrivacyPolicy.tsx) / `applyCrop` (ImageTools.tsx):
`scaleX = image.width / (imgRef.current?.width || image.width)` and likewise
for `y`, each point mapped to `(x·scaleX, y·scaleY)`. -/
def scalePoints (imageW imageH : ℚ) (dispW dispH : Option ℚ) (ps : List Point) :
    List Point :=
  let scaleX := imageW / orFallback dispW imageW
  let scaleY := imageH / orFallback dispH imageH
  ps.map fun p => ⟨p.x * scaleX, p.y * scaleY⟩

/-- Comparator `(a, b) => a.y - b.y` of the corner-ordering code. -/
def ltY (a b : Point) : Prop := a.y ≤ b.y

/-- Comparator `(a, b) => a.x - b.x` of the corner-ordering code. -/
def ltX (a b : Point) : Prop := a.x ≤ b.x

instance : DecidableRel ltY := fun a b => inferInstanceAs (Decidable (a.y ≤ b.y))

instance : DecidableRel ltX := fun a b => inferInstanceAs (Decidable (a.x ≤ b.x))

instance : IsTotal Point ltY := ⟨fun a b => le_total a.y b.y⟩

instance : IsTrans Point ltY := ⟨fun _ _ _ => le_trans⟩

instance : IsTotal Point ltX := ⟨fun a b => le_total a.x b.x⟩

instance : IsTrans Point ltX := ⟨fun _ _ _ => le_trans⟩

/-- The Ordered-Quadrilateral step of `applyManualCrop`: sort the 4 points by
`y`, split into top two and bottom two, sort each pair by `x`, and return
`[top[0], top[1], bottom[1], bottom[0]]` (TL, TR, BR, BL). -/
def orderPoints (ps : List Point) : List Point :=
  let sorted := ps.insertionSort ltY
  let top := (sorted.take 2).insertionSort ltX
  let bottom := (sorted.drop 2).insertionSort ltX
  [top.getD 0 default, top.getD 1 default, bottom.getD 1 default, bottom.getD 0 default]

/-- In `applyManualCrop`, the display→source scaling is applied exactly once,
immediately before the corner ordering that feeds the perspective transform. -/
def rectifySourceQuad (imageW imageH : ℚ) (dispW dispH : Option ℚ)
    (ps : List Point) : List Point :=
  orderPoints (scalePoints imageW imageH dispW dispH ps)

/-- `resizeImage` (PrivacyPolicy.tsx): the uniform pre-crop scale factor
`Math.min(maxDimension / image.width, maxDimension / image.height, 1)`. -/
def resizeScale (maxDim w h : ℚ) : ℚ :=
  min (min (maxDim / w) (maxDim / h)) 1

/-- `resizeImage`: the canvas dimensions `(image.width * scale, image.height * scale)`. -/
def resizeDims (maxDim w h : ℚ) : ℚ × ℚ :=
  (w * resizeScale maxDim w h, h * resizeScale maxDim w h)

/-- `onDrop` (PrivacyPolicy.tsx) resizes the uploaded image with
`resizeImage(src, 1000)` before opening the crop modal. -/
def onDropResize (w h : ℚ) : ℚ × ℚ := resizeDims 1000 w h

/-- The warped output of `cv.warpPerspective` in `applyManualCrop`: a mat of
`rows × cols` pixels, each with three colour channels (the code probes
channels 0, 1, 2 of the RGBA data). -/
structure Warped where
  rows : ℕ
  cols : ℕ
  pix : ℕ → ℕ → ℚ × ℚ × ℚ

/-- Loop stride of the sampling check: `Math.max(1, Math.floor(n / 10))`. -/
def sampleStep (n : ℕ) : ℕ := max 1 (n / 10)

/-- Indices visited by `for (let i = 0; i < n; i += sampleStep n)`. -/
def sampleIdxs (n : ℕ) : List ℕ :=
  (List.range n).filter fun i => i % sampleStep n = 0

/-- The sampling check of `applyManualCrop`: scan the sparse probe grid and
report whether any sampled pixel has a non-zero channel (with early exit in
the source; the early exit does not change the computed value). -/
def hasNonZeroPixels (w : Warped) : Bool :=
  (sampleIdxs w.rows).any fun i =>
    (sampleIdxs w.cols).any fun j => decide (w.pix i j ≠ (0, 0, 0))

/-- Tail of `applyManualCrop` after warping: if no sampled pixel is non-black,
throw `'Perspective transform resulted in an empty image'`; otherwise encode
and return the warped image (quality-1.0 JPEG hand-off). -/
def applyManualCropCheck (w : Warped) : Except String Warped :=
  if hasNonZeroPixels w then Except.ok w
  else Except.error "Perspective transform resulted in an empty image"

/-- The native matrices allocated by `applyManualCrop` and `handleAutoEnhance`
(PrivacyPolicy.tsx). -/
inductive MatName
  | src | dstPoints | srcPoints | transform | warped
  | esrc | ergb | ehsv | echannels | esharp | ekernel
deriving DecidableEq

/-- An allocation or release of a native matrix. -/
inductive MatEv
  | alloc (m : MatName)
  | free (m : MatName)
deriving DecidableEq

/-- Number of allocations of `m` in a trace. -/
def allocCount (t : List MatEv) (m : MatName) : ℕ := t.count (MatEv.alloc m)

/-- Number of releases of `m` in a trace. -/
def freeCount (t : List MatEv) (m : MatName) : ℕ := t.count (MatEv.free m)

/-- Every listed matrix is released exactly as many times as it is allocated. -/
def balancedOn (ms : List MatName) (t : List MatEv) : Bool :=
  ms.all fun m => freeCount t m == allocCount t m

/-- The five mats of `applyManualCrop`. -/
def cropMats : List MatName :=
  [MatName.src, MatName.dstPoints, MatName.srcPoints, MatName.transform, MatName.warped]

/-- Allocation/release trace of `applyManualCrop`: the five mats are created
in order; when the sampled warp output is entirely black (`degenerate`) the
function throws before any `delete()` call, otherwise the five deletes run
after encoding, just before the normal return. -/
def applyManualCropTrace (degenerate : Bool) : List MatEv :=
  [MatEv.alloc MatName.src, MatEv.alloc MatName.dstPoints, MatEv.alloc MatName.srcPoints,
   MatEv.alloc MatName.transform, MatEv.alloc MatName.warped] ++
  if degenerate then []
  else [MatEv.free MatName.src, MatEv.free MatName.srcPoints, MatEv.free MatName.dstPoints,
        MatEv.free MatName.transform, MatEv.free MatName.warped]

/-- Body events of `handleAutoEnhance`'s try block (allocations, the inline
kernel delete, and the normal-path deletes; the sharpening block runs only in
auto/initial mode, where `finalDst` aliases `sharpDst` instead of `rgb`). -/
def heBody (ini : Bool) : List MatEv :=
  [MatEv.alloc MatName.esrc, MatEv.alloc MatName.ergb, MatEv.alloc MatName.ehsv,
   MatEv.alloc MatName.echannels] ++
  (if ini then [MatEv.alloc MatName.esharp, MatEv.alloc MatName.ekernel,
                MatEv.free MatName.ekernel] else []) ++
  [MatEv.free MatName.esrc] ++
  (if ini then [MatEv.free MatName.ergb] else []) ++
  [MatEv.free MatName.ehsv, MatEv.free MatName.echannels] ++
  [MatEv.free (if ini then MatName.esharp else MatName.ergb)]

/-- The mats named in `handleAutoEnhance`'s finally block
(`src, rgb, hsv, channels, sharpDst` — the kernel is not among them). -/
def finallyMats : List MatName :=
  [MatName.esrc, MatName.ergb, MatName.ehsv, MatName.echannels, MatName.esharp]

/-- The finally block: for each tracked variable that holds an allocated,
not-yet-deleted mat (`src && !src.isDeleted()`), delete it. -/
def finallyFrees (pre : List MatEv) : List MatEv :=
  finallyMats.filterMap fun m =>
    if freeCount pre m < allocCount pre m then some (MatEv.free m) else none

/-- Allocation/release trace of `handleAutoEnhance`: nothing happens when the
vision library is not ready (early validation return); otherwise the body runs
up to `failAfter` events (an exception at that point aborts the rest) and the
finally block then releases what is still live. -/
def handleAutoEnhanceTrace (cvReady ini : Bool) (failAfter : ℕ) : List MatEv :=
  if cvReady then
    let pre := (heBody ini).take failAfter
    pre ++ finallyFrees pre
  else []

/-- Clamp a channel value to `[0, 255]`: `Math.min(255, Math.max(0, v))`. -/
def clamp255 (v : ℚ) : ℚ := min 255 (max 0 v)

/-- The contrast/brightness stage of `handleAutoEnhance` (PrivacyPolicy.tsx),
per channel: `contrastFactor = contrast / 100`, overridden to `1.4` in
auto/initial mode; `brightnessOffset = (brightness - 100) * 0.5`, overridden to
`20`; output `(v - 128) * contrastFactor + 128 + brightnessOffset`, clamped. -/
def cbPixel (ini : Bool) (contrast brightness : ℚ) (v : ℚ) : ℚ :=
  let contrastFactor := if ini then 14 / 10 else contrast / 100
  let brightnessOffset := if ini then 20 else (brightness - 100) * (1 / 2)
  clamp255 ((v - 128) * contrastFactor + 128 + brightnessOffset)

/-- The contrast/brightness stage of `handleAutoEnhance` in
DigitalImageEnhancer.tsx and of the worker's `onmessage`
(imageProcessor.worker.js), per channel:
`src.convertTo(dst, -1, contrast / 100, brightness - 100)`, i.e. the
saturating affine map `v * (contrast / 100) + (brightness - 100)`. -/
def convertToPixel (contrast brightness : ℚ) (v : ℚ) : ℚ :=
  clamp255 (v * (contrast / 100) + (brightness - 100))

/-- Modelled from the spec: `cv.cvtColor(..., COLOR_RGB2HSV)` is an external
library call; §4.4 step 4 models it as the exact RGB→HSV conversion with
`S`, `V` on the 0–255 scale and `H` in degrees `[0, 360)`. -/
def rgb2hsv (p : ℚ × ℚ × ℚ) : ℚ × ℚ × ℚ :=
  let r := p.1
  let g := p.2.1
  let b := p.2.2
  let mx := max r (max g b)
  let mn := min r (min g b)
  let d := mx - mn
  let v := mx
  let s := if mx = 0 then 0 else 255 * d / mx
  let h0 :=
    if d = 0 then 0
    else if mx = r then 60 * (g - b) / d
    else if mx = g then 60 * (b - r) / d + 120
    else 60 * (r - g) / d + 240
  let h := if h0 < 0 then h0 + 360 else h0
  (h, s, v)

/-- Modelled from the spec: `cv.cvtColor(..., COLOR_HSV2RGB)` is an external
library call; §4.4 step 4 models it as the exact HSV→RGB conversion (sector
decomposition of the hue). -/
def hsv2rgb (p : ℚ × ℚ × ℚ) : ℚ × ℚ × ℚ :=
  let h := p.1
  let s := p.2.1
  let v := p.2.2
  let c := v * s / 255
  let m := v - c
  if h < 60 then (v, m + c * h / 60, m)
  else if h < 120 then (m + c * (120 - h) / 60, v, m)
  else if h < 180 then (m, v, m + c * (h - 120) / 60)
  else if h < 240 then (m, m + c * (240 - h) / 60, v)
  else if h < 300 then (m + c * (h - 240) / 60, m, v)
  else (v, m, m + c * (360 - h) / 60)

/-- The saturation stage of `handleAutoEnhance` (PrivacyPolicy.tsx): convert
to HSV, scale the S channel by `saturationFactor` with clamping
(`Math.min(255, Math.max(0, pixel[0] * saturationFactor))`), convert back.
Run unconditionally, also at factor 1. -/
def satStage (factor : ℚ) (p : ℚ × ℚ × ℚ) : ℚ × ℚ × ℚ :=
  let hsv := rgb2hsv p
  hsv2rgb (hsv.1, clamp255 (hsv.2.1 * factor), hsv.2.2)

/-- The manual-mode (`isInitial = false`) per-pixel pipeline of
`handleAutoEnhance` (PrivacyPolicy.tsx): no gamma, contrast/brightness from
the sliders, then the HSV saturation round-trip; no sharpening. -/
def enhanceManualPixel (contrast brightness saturation : ℚ) (p : ℚ × ℚ × ℚ) :
    ℚ × ℚ × ℚ :=
  satStage (saturation / 100)
    (cbPixel false contrast brightness p.1,
     cbPixel false contrast brightness p.2.1,
     cbPixel false contrast brightness p.2.2)

/-- A decoded bitmap: dimensions plus per-pixel RGB channels. -/
structure Mat where
  rows : ℕ
  cols : ℕ
  pix : ℕ → ℕ → ℚ × ℚ × ℚ

/-- A per-pixel loop `for i < rows, for j < cols` writing `f` of each pixel. -/
def mapPixels (f : ℚ × ℚ × ℚ → ℚ × ℚ × ℚ) (m : Mat) : Mat :=
  { m with pix := fun i j => if i < m.rows ∧ j < m.cols then f (m.pix i j) else m.pix i j }

/-- The enhancement-slider parameters (percentages, 100 = neutral). -/
structure Enh where
  brightness : ℚ
  contrast : ℚ
  saturation : ℚ

/-- `handleAutoEnhance(imageSrc, false)` as a whole-bitmap function of the
decoded input and the slider parameters. -/
def enhanceMat (e : Enh) (m : Mat) : Mat :=
  mapPixels (enhanceManualPixel e.contrast e.brightness e.saturation) m

/-- The image state retained by the PrivacyPolicy component: the preprocessed
(cropped) original, the currently displayed enhanced bitmap, and the
full-quality enhanced bitmap. -/
structure ImageState where
  preprocessed : Mat
  enhanced : Mat
  fullEnhanced : Mat

/-- `handleEnhancementChange` (PrivacyPolicy.tsx): a slider change stores the
new parameters and re-runs `handleAutoEnhance(image.preprocessed)` (manual
mode), whose completion replaces only the `enhanced` bitmap
(`fullEnhanced` is kept since `isInitial` is false). -/
def handleEnhancementChange (st : ImageState) (e : Enh) : ImageState :=
  { st with enhanced := enhanceMat e st.preprocessed }

/-- A 2-D point with exact real coordinates, for the rotation-drag math. -/
structure RPoint where
  x : ℝ
  y : ℝ

instance : Inhabited RPoint := ⟨⟨0, 0⟩⟩

/-- `Math.atan2(y, x)`, modelled as the argument of the complex number
`x + y·i` (range `(-π, π]`, `atan2 0 0 = 0`). -/
noncomputable def atan2 (y x : ℝ) : ℝ := Complex.arg ⟨x, y⟩

/-- The centroid computation of `handleMouseMove`:
`points.reduce((acc, p) => ({x: acc.x + p.x / 4, y: acc.y + p.y / 4}), {x: 0, y: 0})`. -/
noncomputable def centroid (ps : List RPoint) : RPoint :=
  ps.foldl (fun acc p => ⟨acc.x + p.x / 4, acc.y + p.y / 4⟩) ⟨0, 0⟩

/-- The rotation branch of `handleMouseMove` (ImageTools.tsx /
PrivacyPolicy.tsx): compute the centroid, the pointer angle minus 90°, store
`newRotation` (degrees), and move every point to
`center + radius · (cos, sin)(currentAngle + newRotation · π / 180)` where
`radius`/`currentAngle` are the point's current polar offset from the
centroid.  Returns `(newRotation, newPoints)`. -/
noncomputable def rotatePointsUpdate (ps : List RPoint) (px py : ℝ) :
    ℝ × List RPoint :=
  let c := centroid ps
  let angle := atan2 (py - c.y) (px - c.x) - Real.pi / 2
  let newRotation := angle * 180 / Real.pi
  (newRotation,
    ps.map fun p =>
      let dx := p.x - c.x
      let dy := p.y - c.y
      let radius := Real.sqrt (dx * dx + dy * dy)
      let currentAngle := atan2 dy dx
      let newAngle := currentAngle + newRotation * Real.pi / 180
      ⟨c.x + radius * Real.cos newAngle, c.y + radius * Real.sin newAngle⟩)

/-- Modelled from the spec (§4.1): the rotation-drag update as the spec
states it, applying the incremental rotation `newRotation − oldRotation`
(delta against the previously stored rotation angle) to each point's current
polar offset from the centroid. -/
noncomputable def rotatePointsUpdateSpec (oldRotation : ℝ) (ps : List RPoint)
    (px py : ℝ) : ℝ × List RPoint :=
  let c := centroid ps
  let angle := atan2 (py - c.y) (px - c.x) - Real.pi / 2
  let newRotation := angle * 180 / Real.pi
  (newRotation,
    ps.map fun p =>
      let dx := p.x - c.x
      let dy := p.y - c.y
      let radius := Real.sqrt (dx * dx + dy * dy)
      let currentAngle := atan2 dy dx
      let newAngle := currentAngle + (newRotation - oldRotation) * Real.pi / 180
      ⟨c.x + radius * Real.cos newAngle, c.y + radius * Real.sin newAngle⟩)

/-- Rotation of `p` about `c` by the angle `θ` (radians). -/
noncomputable def rotateAbout (c : RPoint) (θ : ℝ) (p : RPoint) : RPoint :=
  ⟨c.x + (p.x - c.x) * Real.cos θ - (p.y - c.y) * Real.sin θ,
   c.y + (p.x - c.x) * Real.sin θ + (p.y - c.y) * Real.cos θ⟩

/-- Concrete warped outputs used to witness the sampling check. -/
def wWhite : Warped := ⟨842, 595, fun _ _ => (255, 255, 255)⟩

/-- An entirely black warped output. -/
def wBlack : Warped := ⟨842, 595, fun _ _ => (0, 0, 0)⟩

/-- A pixel range-validity predicate: every channel of every pixel lies in
`[0, 255]` (true of any decoded 8-bit bitmap). -/
def ValidMat (m : Mat) : Prop :=
  ∀ i j, 0 ≤ (m.pix i j).1 ∧ (m.pix i j).1 ≤ 255 ∧
    0 ≤ (m.pix i j).2.1 ∧ (m.pix i j).2.1 ≤ 255 ∧
    0 ≤ (m.pix i j).2.2 ∧ (m.pix i j).2.2 ≤ 255

/-- A concrete 1×1 test bitmap. -/
def mTest : Mat := ⟨1, 1, fun _ _ => (10, 200, 30)⟩

theorem exists_four {α : Type} (l : List α) (h : l.length = 4) :
    ∃ a b c d, l = [a, b, c, d] := by
  rcases l with _ | ⟨a, _ | ⟨b, _ | ⟨c, _ | ⟨d, _ | ⟨e, t⟩⟩⟩⟩⟩ <;>
    simp only [List.length] at h <;> try omega
  exact ⟨a, b, c, d, rfl⟩

/-- C5 (amended): for every display size the initial quadrilateral is the
central 80%×80% axis-aligned rectangle with corners `(0.1W, 0.1H)`,
`(0.9W, 0.1H)`, `(0.9W, 0.9H)`, `(0.1W, 0.9H)` in TL, TR, BR, BL order; no
quadrilateral is produced only when the img/container refs are missing, and a
zero natural size yields four coincident points at the origin. -/
theorem handleImageLoad_spec (W H : ℚ) :
    handleImageLoad true W H =
      some [⟨W / 10, H / 10⟩, ⟨9 * W / 10, H / 10⟩,
            ⟨9 * W / 10, 9 * H / 10⟩, ⟨W / 10, 9 * H / 10⟩] ∧
    handleImageLoad false W H = none ∧
    handleImageLoad true 0 0 = some [⟨0, 0⟩, ⟨0, 0⟩, ⟨0, 0⟩, ⟨0, 0⟩] := by
  refine ⟨?_, rfl, by norm_num [handleImageLoad]⟩
  simp only [handleImageLoad, if_true, Option.some.injEq, Point.mk.injEq]
  norm_num
  refine ⟨⟨by ring, by ring⟩, ⟨by ring, by ring⟩, ⟨by ring, by ring⟩, by ring, by ring⟩

/-- C5 counterexample: with the refs present and a zero natural display size,
`handleImageLoad` does produce a quadrilateral (four coincident points at the
origin), contradicting the claim that no quadrilateral is produced. -/
theorem handleImageLoad_zero_size_cex : handleImageLoad true 0 0 ≠ none := by
  norm_num [handleImageLoad]
  exact fun h => Option.noConfusion h

/-- C10: the pre-crop resize uses the single uniform scale factor
`s = min(1000/w, 1000/h, 1)`; both output dimensions are `w·s`, `h·s`, neither
exceeds 1000, the image is never upscaled, and the aspect ratio is preserved. -/
theorem resizeImage_spec (w h : ℚ) (hw : 0 < w) (hh : 0 < h) :
    onDropResize w h = (w * resizeScale 1000 w h, h * resizeScale 1000 w h) ∧
    (onDropResize w h).1 ≤ 1000 ∧
    (onDropResize w h).2 ≤ 1000 ∧
    resizeScale 1000 w h ≤ 1 ∧
    (onDropResize w h).1 * h = (onDropResize w h).2 * w := by
  have hs1 : resizeScale 1000 w h ≤ 1000 / w :=
    le_trans (min_le_left _ _) (min_le_left _ _)
  have hs2 : resizeScale 1000 w h ≤ 1000 / h :=
    le_trans (min_le_left _ _) (min_le_right _ _)
  refine ⟨rfl, ?_, ?_, min_le_right _ _, by simp [onDropResize, resizeDims]; ring⟩
  · have := mul_le_mul_of_nonneg_left hs1 hw.le
    calc (onDropResize w h).1 = w * resizeScale 1000 w h := rfl
      _ ≤ w * (1000 / w) := this
      _ = 1000 := by field_simp
  · have := mul_le_mul_of_nonneg_left hs2 hh.le
    calc (onDropResize w h).2 = h * resizeScale 1000 w h := rfl
      _ ≤ h * (1000 / h) := this
      _ = 1000 := by field_simp

theorem resizeImage_spec_witness :
    onDropResize 1500 1000 =
      (1500 * resizeScale 1000 1500 1000, 1000 * resizeScale 1000 1500 1000) ∧
    (onDropResize 1500 1000).1 ≤ 1000 ∧
    (onDropResize 1500 1000).2 ≤ 1000 ∧
    resizeScale 1000 1500 1000 ≤ 1 ∧
    (onDropResize 1500 1000).1 * 1000 = (onDropResize 1500 1000).2 * 1500 :=
  resizeImage_spec 1500 1000 (by norm_num) (by norm_num)

/-- C6: display→source mapping multiplies componentwise by
`scaleX = imageW / displayedW`, `scaleY = imageH / displayedH` (independent
per axis); missing or zero displayed dimensions fall back to scale 1 so the
points pass through unchanged; the scaling feeds the corner ordering of the
rectification exactly once. -/
theorem scalePoints_spec :
    (∀ (iw ih w h : ℚ) (ps : List Point), w ≠ 0 → h ≠ 0 →
      scalePoints iw ih (some w) (some h) ps =
        ps.map fun p => ⟨p.x * (iw / w), p.y * (ih / h)⟩) ∧
    (∀ (iw ih : ℚ) (ps : List Point), iw ≠ 0 → ih ≠ 0 →
      scalePoints iw ih none none ps = ps ∧
      scalePoints iw ih (some 0) (some 0) ps = ps) ∧
    (∀ iw ih dw dh ps, rectifySourceQuad iw ih dw dh ps =
      orderPoints (scalePoints iw ih dw dh ps)) := by
  refine ⟨fun iw ih w h ps hw hh => ?_, fun iw ih ps hiw hih => ⟨?_, ?_⟩,
    fun _ _ _ _ _ => rfl⟩
  · simp [scalePoints, orFallback, hw, hh]
  · simp [scalePoints, orFallback, div_self hiw, div_self hih]
  · simp [scalePoints, orFallback, div_self hiw, div_self hih]

theorem scalePoints_spec_witness :
    scalePoints 200 100 (some 50) (some 25) [⟨10, 20⟩] =
      [⟨10 * (200 / 50), 20 * (100 / 25)⟩] ∧
    scalePoints 200 100 none none [⟨10, 20⟩] = [⟨10, 20⟩] :=
  ⟨scalePoints_spec.1 200 100 50 25 [⟨10, 20⟩] (by norm_num) (by norm_num),
   (scalePoints_spec.2.1 200 100 [⟨10, 20⟩] (by norm_num) (by norm_num)).1⟩

/-- C4: for every list of exactly 4 points, the Ordered-Quadrilateral step
returns a permutation `[TL, TR, BR, BL]` of the input with
`TL.y ≤ BL.y`, `TL.x ≤ TR.x`, `BL.x ≤ BR.x` and `TR.y ≤ BR.y`
(hence in particular for any 4 points forming a convex non-degenerate
quadrilateral, in any input order). -/
theorem orderPoints_spec (ps : List Point) (h4 : ps.length = 4) :
    (orderPoints ps).Perm ps ∧
    ((orderPoints ps).getD 0 default).y ≤ ((orderPoints ps).getD 3 default).y ∧
    ((orderPoints ps).getD 0 default).x ≤ ((orderPoints ps).getD 1 default).x ∧
    ((orderPoints ps).getD 3 default).x ≤ ((orderPoints ps).getD 2 default).x ∧
    ((orderPoints ps).getD 1 default).y ≤ ((orderPoints ps).getD 2 default).y := by
  have hperm : (ps.insertionSort ltY).Perm ps := List.perm_insertionSort ltY ps
  have hsort : List.Sorted ltY (ps.insertionSort ltY) := List.sorted_insertionSort ltY ps
  have hlen : (ps.insertionSort ltY).length = 4 := by rw [hperm.length_eq, h4]
  obtain ⟨a, b, c, d, hseq⟩ := exists_four _ hlen
  rw [hseq] at hperm hsort
  simp only [List.sorted_cons, List.mem_cons, List.mem_singleton, ltY,
    List.not_mem_nil, List.Sorted, List.pairwise_cons, List.Pairwise.nil] at hsort
  have hac : a.y ≤ c.y := hsort.1 c (by simp)
  have had : a.y ≤ d.y := hsort.1 d (by simp)
  have hbc : b.y ≤ c.y := hsort.2.1 c (by simp)
  have hbd : b.y ≤ d.y := hsort.2.1 d (by simp)
  have habcd : ([a, b, d, c] : List Point).Perm [a, b, c, d] :=
    List.Perm.cons a (List.Perm.cons b (List.Perm.swap c d []))
  have hbacd : ([b, a, c, d] : List Point).Perm [a, b, c, d] :=
    List.Perm.swap a b [c, d]
  have hbadc : ([b, a, d, c] : List Point).Perm [a, b, c, d] :=
    List.Perm.trans (List.Perm.cons b (List.Perm.cons a (List.Perm.swap c d [])))
      (List.Perm.swap a b [c, d])
  by_cases hab : ltX a b <;> by_cases hcd : ltX c d
  · have hop : orderPoints ps = [a, b, d, c] := by
      simp [orderPoints, hseq, List.insertionSort, List.orderedInsert, hab, hcd]
    rw [hop]
    exact ⟨habcd.trans hperm, by simpa [List.getD] using hac,
      by simpa [List.getD] using hab, by simpa [List.getD] using hcd,
      by simpa [List.getD] using hbd⟩
  · have hcd' : d.x ≤ c.x := le_of_not_le hcd
    have hop : orderPoints ps = [a, b, c, d] := by
      simp [orderPoints, hseq, List.insertionSort, List.orderedInsert, hab, hcd]
    rw [hop]
    exact ⟨hperm, by simpa [List.getD] using had,
      by simpa [List.getD] using hab, by simpa [List.getD] using hcd',
      by simpa [List.getD] using hbc⟩
  · have hab' : b.x ≤ a.x := le_of_not_le hab
    have hop : orderPoints ps = [b, a, d, c] := by
      simp [orderPoints, hseq, List.insertionSort, List.orderedInsert, hab, hcd]
    rw [hop]
    exact ⟨hbadc.trans hperm, by simpa [List.getD] using hbc,
      by simpa [List.getD] using hab', by simpa [List.getD] using hcd,
      by simpa [List.getD] using had⟩
  · have hab' : b.x ≤ a.x := le_of_not_le hab
    have hcd' : d.x ≤ c.x := le_of_not_le hcd
    have hop : orderPoints ps = [b, a, c, d] := by
      simp [orderPoints, hseq, List.insertionSort, List.orderedInsert, hab, hcd]
    rw [hop]
    exact ⟨hbacd.trans hperm, by simpa [List.getD] using hbd,
      by simpa [List.getD] using hab', by simpa [List.getD] using hcd',
      by simpa [List.getD] using hac⟩

theorem orderPoints_spec_witness :
    (orderPoints [⟨3, 4⟩, ⟨0, 0⟩, ⟨5, 1⟩, ⟨1, 5⟩]).Perm [⟨3, 4⟩, ⟨0, 0⟩, ⟨5, 1⟩, ⟨1, 5⟩] ∧
    ((orderPoints [⟨3, 4⟩, ⟨0, 0⟩, ⟨5, 1⟩, ⟨1, 5⟩]).getD 0 default).y ≤
      ((orderPoints [⟨3, 4⟩, ⟨0, 0⟩, ⟨5, 1⟩, ⟨1, 5⟩]).getD 3 default).y ∧
    ((orderPoints [⟨3, 4⟩, ⟨0, 0⟩, ⟨5, 1⟩, ⟨1, 5⟩]).getD 0 default).x ≤
      ((orderPoints [⟨3, 4⟩, ⟨0, 0⟩, ⟨5, 1⟩, ⟨1, 5⟩]).getD 1 default).x ∧
    ((orderPoints [⟨3, 4⟩, ⟨0, 0⟩, ⟨5, 1⟩, ⟨1, 5⟩]).getD 3 default).x ≤
      ((orderPoints [⟨3, 4⟩, ⟨0, 0⟩, ⟨5, 1⟩, ⟨1, 5⟩]).getD 2 default).x ∧
    ((orderPoints [⟨3, 4⟩, ⟨0, 0⟩, ⟨5, 1⟩, ⟨1, 5⟩]).getD 1 default).y ≤
      ((orderPoints [⟨3, 4⟩, ⟨0, 0⟩, ⟨5, 1⟩, ⟨1, 5⟩]).getD 2 default).y :=
  orderPoints_spec [⟨3, 4⟩, ⟨0, 0⟩, ⟨5, 1⟩, ⟨1, 5⟩] rfl

/-- C2: the warped output is probed on the sparse grid with stride
`max(1, ⌊n/10⌋)` per axis (an 11×11 grid at the fixed 595×842 target);
rectification raises the degenerate-transform error exactly when every
sampled pixel is black in all channels, returns the encoded warped image as
soon as one sampled pixel is non-black, and in particular any entirely black
warp (the spec's model of a degenerate transform from collinear or coincident
input points) yields the error, never a silently returned blank image. -/
theorem applyManualCrop_blank_check (w : Warped) :
    ((∃ e, applyManualCropCheck w = Except.error e) ↔
      ∀ i ∈ sampleIdxs w.rows, ∀ j ∈ sampleIdxs w.cols, w.pix i j = (0, 0, 0)) ∧
    ((∃ i ∈ sampleIdxs w.rows, ∃ j ∈ sampleIdxs w.cols, w.pix i j ≠ (0, 0, 0)) →
      applyManualCropCheck w = Except.ok w) ∧
    ((∀ i j, w.pix i j = (0, 0, 0)) → ∃ e, applyManualCropCheck w = Except.error e) ∧
    (w.rows = 842 → (sampleIdxs w.rows).length = 11) ∧
    (w.cols = 595 → (sampleIdxs w.cols).length = 11) := by
  have key : hasNonZeroPixels w = true ↔
      ∃ i ∈ sampleIdxs w.rows, ∃ j ∈ sampleIdxs w.cols, w.pix i j ≠ (0, 0, 0) := by
    simp [hasNonZeroPixels, List.any_eq_true]
  refine ⟨?_, ?_, ?_, ?_, ?_⟩
  · constructor
    · rintro ⟨e, he⟩ i hi j hj
      by_contra hne
      have : hasNonZeroPixels w = true := key.mpr ⟨i, hi, j, hj, hne⟩
      simp [applyManualCropCheck, this] at he
    · intro hall
      have : hasNonZeroPixels w = false := by
        rw [Bool.eq_false_iff]
        intro ht
        obtain ⟨i, hi, j, hj, hne⟩ := key.mp ht
        exact hne (hall i hi j hj)
      exact ⟨"Perspective transform resulted in an empty image",
        by simp [applyManualCropCheck, this]⟩
  · intro hex
    simp [applyManualCropCheck, key.mpr hex]
  · intro hall
    have : hasNonZeroPixels w = false := by
      rw [Bool.eq_false_iff]
      intro ht
      obtain ⟨i, _, j, _, hne⟩ := key.mp ht
      exact hne (hall i j)
    exact ⟨"Perspective transform resulted in an empty image",
      by simp [applyManualCropCheck, this]⟩
  · intro h
    rw [h]
    decide
  · intro h
    rw [h]
    decide

theorem applyManualCrop_blank_check_witness :
    applyManualCropCheck wWhite = Except.ok wWhite ∧
    ∃ e, applyManualCropCheck wBlack = Except.error e :=
  ⟨(applyManualCrop_blank_check wWhite).2.1 ⟨0, by decide, 0, by decide, by decide⟩,
   (applyManualCrop_blank_check wBlack).2.2.1 fun _ _ => rfl⟩

/-- C1: in `applyManualCrop` the five native mats are each released exactly
once on the normal path, but on the degenerate-transform throw path none of
them is released (the deletes are unconditional code after the encode, with
no try/finally); `handleAutoEnhance` releases its tracked mats exactly once
on every path — early validation return, normal manual and auto runs, and an
exception after any prefix of its body — except that the sharpening kernel is
not named in its finally block, so an exception between the kernel's
allocation and its inline delete leaks it. -/
theorem matLifecycle_spec :
    balancedOn cropMats (applyManualCropTrace false) = true ∧
    balancedOn cropMats (applyManualCropTrace true) = false ∧
    allocCount (applyManualCropTrace true) MatName.src = 1 ∧
    freeCount (applyManualCropTrace true) MatName.src = 0 ∧
    ((List.range 14).all fun n =>
      balancedOn finallyMats (handleAutoEnhanceTrace true true n) &&
      balancedOn finallyMats (handleAutoEnhanceTrace true false n)) = true ∧
    handleAutoEnhanceTrace false true 0 = [] ∧
    allocCount (handleAutoEnhanceTrace true true 6) MatName.ekernel = 1 ∧
    freeCount (handleAutoEnhanceTrace true true 6) MatName.ekernel = 0 := by
  decide

/-- C7 counterexample: the contrast/brightness step of
DigitalImageEnhancer.tsx and of the worker (`convertTo(-1, contrast/100,
brightness-100)`) does not apply the claimed midpoint-128 damped formula:
at channel value 0 with contrast 100%, brightness 120% it yields 20, while
the claimed formula (as implemented by PrivacyPolicy's `cbPixel`) yields 10. -/
theorem convertTo_not_midpoint_cex :
    convertToPixel 100 120 0 = 20 ∧ cbPixel false 100 120 0 = 10 ∧
    convertToPixel 100 120 0 ≠ cbPixel false 100 120 0 := by
  norm_num [convertToPixel, cbPixel, clamp255]

/-- C7 (amended): PrivacyPolicy's `handleAutoEnhance` applies contrast and
brightness together around the fixed midpoint 128 as
`clamp((v − 128)·contrastFactor + 128 + brightnessOffset)`, with
`contrastFactor = contrast%/100` and `brightnessOffset = (brightness% − 100)·0.5`
in manual mode and the fixed `1.4` / `20` in auto mode; the
DigitalImageEnhancer.tsx and worker variants instead compute the saturating
affine map `clamp(v·(contrast%/100) + (brightness% − 100))` with no midpoint
and no 0.5 damping. -/
theorem contrastBrightness_spec :
    (∀ c b v : ℚ, cbPixel false c b v =
      clamp255 ((v - 128) * (c / 100) + 128 + (b - 100) * (1 / 2))) ∧
    (∀ c b v : ℚ, cbPixel true c b v =
      clamp255 ((v - 128) * (14 / 10) + 128 + 20)) ∧
    (∀ c b v : ℚ, convertToPixel c b v =
      clamp255 (v * (c / 100) + (b - 100))) := by
  exact ⟨fun _ _ _ => rfl, fun _ _ _ => rfl, fun _ _ _ => rfl⟩

/-- C9: enhancement is a pure function of the retained preprocessed bitmap
and the slider parameters: a slider change recomputes `enhanced` from
`preprocessed` (never from the previously enhanced bitmap), `preprocessed`
survives unchanged, and re-running with identical parameters reproduces the
same output — repeated re-enhancement does not compound. -/
theorem handleEnhancementChange_spec (st : ImageState) (e : Enh) :
    (handleEnhancementChange st e).enhanced = enhanceMat e st.preprocessed ∧
    (handleEnhancementChange st e).preprocessed = st.preprocessed ∧
    (handleEnhancementChange st e).fullEnhanced = st.fullEnhanced ∧
    (handleEnhancementChange (handleEnhancementChange st e) e).enhanced =
      (handleEnhancementChange st e).enhanced := by
  refine ⟨rfl, rfl, rfl, ?_⟩
  simp [handleEnhancementChange]

theorem rt_rmax (r g b : ℚ) (hg : 0 ≤ g) (hb : 0 ≤ b) (hgr : g ≤ r) (hbr : b ≤ r)
    (hd : max r (max g b) - min r (min g b) ≠ 0) :
    hsv2rgb (rgb2hsv (r, g, b)) = (r, g, b) := by
  have hmx : max r (max g b) = r := max_eq_left (max_le hgr hbr)
  have hmng : min r (min g b) = min g b := min_eq_right ((min_le_left g b).trans hgr)
  rcases le_total b g with hbg | hbg
  · -- b ≤ g : mn = b, h0 = 60(g-b)/(r-b) ∈ [0, 60]
    have hmn : min r (min g b) = b := by rw [hmng, min_eq_right hbg]
    rw [hmx, hmn] at hd
    have hdpos : 0 < r - b := lt_of_le_of_ne (sub_nonneg.mpr hbr) (Ne.symm hd)
    have hrpos : 0 < r := by linarith
    have h0nonneg : 0 ≤ 60 * (g - b) / (r - b) :=
      div_nonneg (by linarith) hdpos.le
    simp only [rgb2hsv, hsv2rgb]
    rw [hmx, hmn, if_neg hd, if_pos (show r = r from rfl), if_neg hrpos.ne',
      if_neg (not_lt.mpr h0nonneg)]
    have hc : r * (255 * (r - b) / r) / 255 = r - b := by field_simp
    by_cases hglt : g < r
    · have ht : 60 * (g - b) / (r - b) < 60 := by
        rw [div_lt_iff₀ hdpos]; linarith
      rw [if_pos ht, Prod.mk.injEq, Prod.mk.injEq, hc]
      refine ⟨rfl, ?_, by ring⟩
      first
        | (field_simp; ring)
        | field_simp
    · have hge : g = r := le_antisymm hgr (not_lt.mp hglt)
      have ht : ¬(60 * (g - b) / (r - b) < 60) := by
        rw [not_lt, le_div_iff₀ hdpos]; nlinarith [hge]
      have ht2 : 60 * (g - b) / (r - b) < 120 := by
        rw [div_lt_iff₀ hdpos]; nlinarith [hge]
      rw [if_neg ht, if_pos ht2, Prod.mk.injEq, Prod.mk.injEq, hc]
      subst hge
      have hgb0 : g - b ≠ 0 := hd
      refine ⟨?_, rfl, by ring⟩
      first
        | (field_simp; ring)
        | field_simp
  · -- g ≤ b : mn = g, h0 = 60(g-b)/(r-g) ≤ 0
    have hmn : min r (min g b) = g := by rw [hmng, min_eq_left hbg]
    rw [hmx, hmn] at hd
    have hdpos : 0 < r - g := lt_of_le_of_ne (sub_nonneg.mpr hgr) (Ne.symm hd)
    have hrpos : 0 < r := by linarith
    simp only [rgb2hsv, hsv2rgb]
    rw [hmx, hmn, if_neg hd, if_pos (show r = r from rfl), if_neg hrpos.ne']
    have hc : r * (255 * (r - g) / r) / 255 = r - g := by field_simp
    by_cases hbg0 : g = b
    · -- tie g = b: h0 = 0, sector 0
      subst hbg0
      rw [if_neg (by norm_num : ¬((60 : ℚ) * (g - g) / (r - g) < 0))]
      rw [if_pos (by norm_num [hdpos] : (60 : ℚ) * (g - g) / (r - g) < 60)]
      rw [Prod.mk.injEq, Prod.mk.injEq, hc]
      refine ⟨rfl, by field_simp, by ring⟩
    · have hgb : g < b := lt_of_le_of_ne hbg hbg0
      have h0neg : 60 * (g - b) / (r - g) < 0 :=
        div_neg_of_neg_of_pos (by linarith) hdpos
      rw [if_pos h0neg]
      have hge300 : (300 : ℚ) ≤ 60 * (g - b) / (r - g) + 360 := by
        rw [← sub_nonneg]
        have : 60 * (g - b) / (r - g) + 360 - 300 = (60 * (g - b) + 60 * (r - g)) / (r - g) := by
          field_simp
          ring
        rw [this]
        exact div_nonneg (by linarith) hdpos.le
      by_cases hblt : b < r
      · have hgt300 : (300 : ℚ) < 60 * (g - b) / (r - g) + 360 := by
          rw [← sub_pos]
          have : 60 * (g - b) / (r - g) + 360 - 300 = (60 * (g - b) + 60 * (r - g)) / (r - g) := by
            field_simp
            ring
          rw [this]
          exact div_pos (by linarith) hdpos
        rw [if_neg (by linarith), if_neg (by linarith), if_neg (by linarith),
          if_neg (by linarith), if_neg (not_lt.mpr hgt300.le)]
        rw [Prod.mk.injEq, Prod.mk.injEq, hc]
        refine ⟨rfl, by ring, ?_⟩
        first
          | (field_simp; ring)
          | field_simp
      · have hbe : b = r := le_antisymm hbr (not_lt.mp hblt)
        subst hbe
        have h300 : 60 * (g - b) / (b - g) + 360 = 300 := by
          field_simp
          ring
        rw [h300]
        rw [if_neg (by norm_num), if_neg (by norm_num), if_neg (by norm_num),
          if_neg (by norm_num), if_neg (by norm_num)]
        rw [Prod.mk.injEq, Prod.mk.injEq, hc]
        refine ⟨rfl, by ring, ?_⟩
        first
          | (field_simp; ring)
          | field_simp

theorem rt_gmax (r g b : ℚ) (hr : 0 ≤ r) (hb : 0 ≤ b) (hrg : r < g) (hbg : b ≤ g) :
    hsv2rgb (rgb2hsv (r, g, b)) = (r, g, b) := by
  have hmx : max r (max g b) = g := by rw [max_eq_left hbg, max_eq_right hrg.le]
  rcases le_total b r with hbr | hbr
  · -- b ≤ r : mn = b, d = g − b, h0 = 120 − 60(r−b)/(g−b) ∈ (60, 120]
    have hmn : min r (min g b) = b := by rw [min_eq_right hbg, min_eq_right hbr]
    have hdpos : 0 < g - b := by linarith
    have hgpos : 0 < g := by linarith
    simp only [rgb2hsv, hsv2rgb]
    rw [hmx, hmn, if_neg (by linarith : ¬(g - b = 0)), if_neg hrg.ne',
      if_pos (show g = g from rfl), if_neg hgpos.ne']
    have h0ge : (60 : ℚ) < 60 * (b - r) / (g - b) + 120 := by
      rw [← sub_pos]
      have : 60 * (b - r) / (g - b) + 120 - 60 = (60 * (b - r) + 60 * (g - b)) / (g - b) := by
        field_simp
        ring
      rw [this]
      exact div_pos (by linarith) hdpos
    rw [if_neg (by linarith : ¬(60 * (b - r) / (g - b) + 120 < 0))]
    have hc : g * (255 * (g - b) / g) / 255 = g - b := by field_simp
    by_cases hbr' : b < r
    · have hlt : 60 * (b - r) / (g - b) + 120 < 120 := by
        have : 60 * (b - r) / (g - b) < 0 := div_neg_of_neg_of_pos (by linarith) hdpos
        linarith
      rw [if_neg (by linarith), if_pos hlt, Prod.mk.injEq, Prod.mk.injEq, hc]
      refine ⟨?_, rfl, by ring⟩
      first
        | (field_simp; ring)
        | field_simp
    · have hbe : b = r := le_antisymm hbr (not_lt.mp hbr')
      subst hbe
      have h120 : 60 * (b - b) / (g - b) + 120 = 120 := by
        rw [sub_self]
        norm_num
      rw [h120]
      rw [if_neg (by norm_num), if_neg (by norm_num), if_pos (by norm_num : (120:ℚ) < 180)]
      rw [Prod.mk.injEq, Prod.mk.injEq, hc]
      refine ⟨by ring, rfl, by ring⟩
  · -- r ≤ b : mn = r, d = g − r, h0 = 120 + 60(b−r)/(g−r) ∈ [120, 180]
    have hmn : min r (min g b) = r := by rw [min_eq_right hbg, min_eq_left hbr]
    have hdpos : 0 < g - r := by linarith
    have hgpos : 0 < g := by linarith
    simp only [rgb2hsv, hsv2rgb]
    rw [hmx, hmn, if_neg (by linarith : ¬(g - r = 0)), if_neg hrg.ne',
      if_pos (show g = g from rfl), if_neg hgpos.ne']
    have h0ge : (120 : ℚ) ≤ 60 * (b - r) / (g - r) + 120 := by
      have : 0 ≤ 60 * (b - r) / (g - r) := div_nonneg (by linarith) hdpos.le
      linarith
    rw [if_neg (by linarith : ¬(60 * (b - r) / (g - r) + 120 < 0))]
    have hc : g * (255 * (g - r) / g) / 255 = g - r := by field_simp
    by_cases hblt : b < g
    · have hlt : 60 * (b - r) / (g - r) + 120 < 180 := by
        have : 60 * (b - r) / (g - r) < 60 := by
          rw [div_lt_iff₀ hdpos]
          linarith
        linarith
      rw [if_neg (by linarith), if_neg (by linarith), if_pos hlt,
        Prod.mk.injEq, Prod.mk.injEq, hc]
      refine ⟨by ring, rfl, ?_⟩
      first
        | (field_simp; ring)
        | field_simp
    · have hbe : b = g := le_antisymm hbg (not_lt.mp hblt)
      subst hbe
      have h180 : 60 * (b - r) / (b - r) + 120 = 180 := by
        rw [mul_div_assoc, div_self (by linarith : b - r ≠ 0)]
        norm_num
      rw [h180]
      rw [if_neg (by norm_num), if_neg (by norm_num), if_neg (by norm_num),
        if_pos (by norm_num : (180:ℚ) < 240)]
      rw [Prod.mk.injEq, Prod.mk.injEq, hc]
      refine ⟨by ring, ?_, by ring⟩
      first
        | (field_simp; ring)
        | field_simp

theorem rt_bmax (r g b : ℚ) (hr : 0 ≤ r) (hg : 0 ≤ g) (hrb : r < b) (hgb : g < b) :
    hsv2rgb (rgb2hsv (r, g, b)) = (r, g, b) := by
  have hmx : max r (max g b) = b := by rw [max_eq_right hgb.le, max_eq_right hrb.le]
  rcases le_total g r with hgr | hgr
  · -- g ≤ r : mn = g, d = b − g, h0 = 240 + 60(r−g)/(b−g) ∈ [240, 300)
    have hmn : min r (min g b) = g := by rw [min_eq_left hgb.le, min_eq_right hgr]
    have hdpos : 0 < b - g := by linarith
    have hbpos : 0 < b := by linarith
    simp only [rgb2hsv, hsv2rgb]
    rw [hmx, hmn, if_neg (by linarith : ¬(b - g = 0)), if_neg hrb.ne',
      if_neg hgb.ne', if_neg hbpos.ne']
    have h0ge : (240 : ℚ) ≤ 60 * (r - g) / (b - g) + 240 := by
      have : 0 ≤ 60 * (r - g) / (b - g) := div_nonneg (by linarith) hdpos.le
      linarith
    have h0lt : 60 * (r - g) / (b - g) + 240 < 300 := by
      have : 60 * (r - g) / (b - g) < 60 := by
        rw [div_lt_iff₀ hdpos]
        linarith
      linarith
    rw [if_neg (by linarith : ¬(60 * (r - g) / (b - g) + 240 < 0))]
    have hc : b * (255 * (b - g) / b) / 255 = b - g := by field_simp
    rw [if_neg (by linarith), if_neg (by linarith), if_neg (by linarith),
      if_neg (by linarith), if_pos h0lt, Prod.mk.injEq, Prod.mk.injEq, hc]
    refine ⟨?_, by ring, rfl⟩
    first
      | (field_simp; ring)
      | field_simp
  · -- r ≤ g : mn = r, d = b − r, h0 = 240 − 60(g−r)/(b−r) ∈ (180, 240]
    have hmn : min r (min g b) = r := by rw [min_eq_left hgb.le, min_eq_left hgr]
    have hdpos : 0 < b - r := by linarith
    have hbpos : 0 < b := by linarith
    simp only [rgb2hsv, hsv2rgb]
    rw [hmx, hmn, if_neg (by linarith : ¬(b - r = 0)), if_neg hrb.ne',
      if_neg hgb.ne', if_neg hbpos.ne']
    have h0gt : (180 : ℚ) < 60 * (r - g) / (b - r) + 240 := by
      rw [← sub_pos]
      have : 60 * (r - g) / (b - r) + 240 - 180 = (60 * (r - g) + 60 * (b - r)) / (b - r) := by
        field_simp
        ring
      rw [this]
      exact div_pos (by linarith) hdpos
    rw [if_neg (by linarith : ¬(60 * (r - g) / (b - r) + 240 < 0))]
    have hc : b * (255 * (b - r) / b) / 255 = b - r := by field_simp
    by_cases hrlt : r < g
    · have hlt : 60 * (r - g) / (b - r) + 240 < 240 := by
        have : 60 * (r - g) / (b - r) < 0 := div_neg_of_neg_of_pos (by linarith) hdpos
        linarith
      rw [if_neg (by linarith), if_neg (by linarith), if_neg (by linarith), if_pos hlt,
        Prod.mk.injEq, Prod.mk.injEq, hc]
      refine ⟨by ring, ?_, rfl⟩
      first
        | (field_simp; ring)
        | field_simp
    · have hge : g = r := le_antisymm (not_lt.mp hrlt) hgr
      have h240 : 60 * (r - g) / (b - r) + 240 = 240 := by
        rw [hge, sub_self]
        norm_num
      rw [h240]
      rw [if_neg (by norm_num), if_neg (by norm_num), if_neg (by norm_num),
        if_neg (by norm_num), if_pos (by norm_num : (240:ℚ) < 300)]
      rw [Prod.mk.injEq, Prod.mk.injEq, hc]
      refine ⟨by ring, by rw [hge]; ring, rfl⟩

theorem rt_gray (x : ℚ) (hx : 0 ≤ x) : hsv2rgb (rgb2hsv (x, x, x)) = (x, x, x) := by
  by_cases hx0 : x = 0
  · subst hx0
    norm_num [rgb2hsv, hsv2rgb]
  · norm_num [rgb2hsv, hsv2rgb, max_self, min_self, sub_self, hx0]

theorem hsv_roundtrip (r g b : ℚ) (hr : 0 ≤ r) (hg : 0 ≤ g) (hb : 0 ≤ b) :
    hsv2rgb (rgb2hsv (r, g, b)) = (r, g, b) := by
  by_cases hd : max r (max g b) - min r (min g b) = 0
  · have hmxmn : max r (max g b) = min r (min g b) := sub_eq_zero.mp hd
    have h1 : r ≤ min r (min g b) := hmxmn ▸ le_max_left r (max g b)
    have h2 : g ≤ min r (min g b) :=
      hmxmn ▸ le_trans (le_max_left g b) (le_max_right r (max g b))
    have h3 : b ≤ min r (min g b) :=
      hmxmn ▸ le_trans (le_max_right g b) (le_max_right r (max g b))
    have hgr : g = r :=
      le_antisymm (h2.trans (min_le_left r _))
        (h1.trans ((min_le_right r _).trans (min_le_left g b)))
    have hbr : b = r :=
      le_antisymm (h3.trans (min_le_left r _))
        (h1.trans ((min_le_right r _).trans (min_le_right g b)))
    rw [hgr, hbr]
    exact rt_gray r hr
  · by_cases hrm : g ≤ r ∧ b ≤ r
    · exact rt_rmax r g b hg hb hrm.1 hrm.2 hd
    · rcases lt_or_le g b with hgb | hbg
      · have hrb : r < b := by
          by_contra hc2
          push_neg at hc2
          exact hrm ⟨by linarith, hc2⟩
        exact rt_bmax r g b hr hg hrb hgb
      · have hrg2 : r < g := by
          by_contra hc2
          push_neg at hc2
          exact hrm ⟨hc2, hbg.trans hc2⟩
        exact rt_gmax r g b hr hb hrg2 hbg

theorem rgb2hsv_s_bounds (r g b : ℚ) (hr : 0 ≤ r) (hg : 0 ≤ g) (hb : 0 ≤ b) :
    0 ≤ (rgb2hsv (r, g, b)).2.1 ∧ (rgb2hsv (r, g, b)).2.1 ≤ 255 := by
  have hd0 : 0 ≤ max r (max g b) - min r (min g b) :=
    sub_nonneg.mpr ((min_le_left r _).trans (le_max_left r _))
  have hmn0 : 0 ≤ min r (min g b) := le_min hr (le_min hg hb)
  simp only [rgb2hsv]
  by_cases h0 : max r (max g b) = 0
  · simp [h0]
  · have hmx0 : 0 < max r (max g b) :=
      lt_of_le_of_ne (hr.trans (le_max_left _ _)) (Ne.symm h0)
    rw [if_neg h0]
    constructor
    · exact div_nonneg (by linarith) hmx0.le
    · rw [div_le_iff₀ hmx0]
      linarith

theorem cbPixel_neutral (v : ℚ) (h0 : 0 ≤ v) (h255 : v ≤ 255) :
    cbPixel false 100 100 v = v := by
  unfold cbPixel clamp255
  norm_num
  rw [max_eq_right h0, min_eq_right h255]

theorem satStage_one (r g b : ℚ) (hr : 0 ≤ r) (hg : 0 ≤ g) (hb : 0 ≤ b) :
    satStage 1 (r, g, b) = (r, g, b) := by
  have hs := rgb2hsv_s_bounds r g b hr hg hb
  simp only [satStage]
  have hcl : clamp255 ((rgb2hsv (r, g, b)).2.1 * 1) = (rgb2hsv (r, g, b)).2.1 := by
    rw [mul_one]
    unfold clamp255
    rw [max_eq_right hs.1, min_eq_right hs.2]
  rw [hcl]
  exact hsv_roundtrip r g b hr hg hb

theorem enhanceManualPixel_neutral (r g b : ℚ) (hr : 0 ≤ r) (hr2 : r ≤ 255)
    (hg : 0 ≤ g) (hg2 : g ≤ 255) (hb : 0 ≤ b) (hb2 : b ≤ 255) :
    enhanceManualPixel 100 100 100 (r, g, b) = (r, g, b) := by
  unfold enhanceManualPixel
  have h1 : (100 : ℚ) / 100 = 1 := by norm_num
  rw [h1]
  show satStage 1 (cbPixel false 100 100 r, cbPixel false 100 100 g,
    cbPixel false 100 100 b) = (r, g, b)
  rw [cbPixel_neutral r hr hr2, cbPixel_neutral g hg hg2, cbPixel_neutral b hb hb2]
  exact satStage_one r g b hr hg hb

/-- C8: the manual-mode enhancement with the neutral parameter set
`{brightness: 100, contrast: 100, saturation: 100}` is an identity transform
on every valid (8-bit range) bitmap, including through the unconditional
RGB→HSV→RGB saturation round-trip at factor 1. -/
theorem enhance_neutral_identity (m : Mat) (hval : ValidMat m) :
    enhanceMat ⟨100, 100, 100⟩ m = m := by
  obtain ⟨rows, cols, pix⟩ := m
  simp only [enhanceMat, mapPixels]
  congr 1
  funext i j
  split_ifs with hij
  · obtain ⟨h1, h2, h3, h4, h5, h6⟩ := hval i j
    calc enhanceManualPixel 100 100 100 (pix i j)
        = enhanceManualPixel 100 100 100 ((pix i j).1, (pix i j).2.1, (pix i j).2.2) := rfl
      _ = ((pix i j).1, (pix i j).2.1, (pix i j).2.2) :=
          enhanceManualPixel_neutral _ _ _ h1 h2 h3 h4 h5 h6
      _ = pix i j := rfl
  · rfl

theorem enhance_neutral_identity_witness :
    enhanceMat ⟨100, 100, 100⟩ mTest = mTest :=
  enhance_neutral_identity mTest (fun _ _ => by norm_num [mTest])

theorem polar_cos (dx dy θ : ℝ) :
    Real.sqrt (dx * dx + dy * dy) * Real.cos (atan2 dy dx + θ) =
      dx * Real.cos θ - dy * Real.sin θ := by
  by_cases h0 : (⟨dx, dy⟩ : ℂ) = 0
  · have hdx : dx = 0 := congrArg Complex.re h0
    have hdy : dy = 0 := congrArg Complex.im h0
    subst hdx
    subst hdy
    norm_num
  · have habs : Real.sqrt (dx * dx + dy * dy) = Complex.abs ⟨dx, dy⟩ := by
      rw [Complex.abs_apply, Complex.normSq_mk]
    have habs0 : Complex.abs ⟨dx, dy⟩ ≠ 0 := Complex.abs.ne_zero h0
    have hcos := Complex.cos_arg h0
    have hsin := Complex.sin_arg (⟨dx, dy⟩ : ℂ)
    rw [Real.cos_add, habs, atan2, hcos, hsin]
    show Complex.abs ⟨dx, dy⟩ *
      ((⟨dx, dy⟩ : ℂ).re / Complex.abs ⟨dx, dy⟩ * Real.cos θ -
       (⟨dx, dy⟩ : ℂ).im / Complex.abs ⟨dx, dy⟩ * Real.sin θ) = _
    first
      | (field_simp; ring)
      | field_simp

theorem polar_sin (dx dy θ : ℝ) :
    Real.sqrt (dx * dx + dy * dy) * Real.sin (atan2 dy dx + θ) =
      dx * Real.sin θ + dy * Real.cos θ := by
  by_cases h0 : (⟨dx, dy⟩ : ℂ) = 0
  · have hdx : dx = 0 := congrArg Complex.re h0
    have hdy : dy = 0 := congrArg Complex.im h0
    subst hdx
    subst hdy
    norm_num
  · have habs : Real.sqrt (dx * dx + dy * dy) = Complex.abs ⟨dx, dy⟩ := by
      rw [Complex.abs_apply, Complex.normSq_mk]
    have habs0 : Complex.abs ⟨dx, dy⟩ ≠ 0 := Complex.abs.ne_zero h0
    have hcos := Complex.cos_arg h0
    have hsin := Complex.sin_arg (⟨dx, dy⟩ : ℂ)
    rw [Real.sin_add, habs, atan2, hsin, hcos]
    show Complex.abs ⟨dx, dy⟩ *
      ((⟨dx, dy⟩ : ℂ).im / Complex.abs ⟨dx, dy⟩ * Real.cos θ +
       (⟨dx, dy⟩ : ℂ).re / Complex.abs ⟨dx, dy⟩ * Real.sin θ) = _
    first
      | (field_simp; ring)
      | field_simp

theorem rotate_polar (c p : RPoint) (φ : ℝ) :
    (⟨c.x + Real.sqrt ((p.x - c.x) * (p.x - c.x) + (p.y - c.y) * (p.y - c.y)) *
        Real.cos (atan2 (p.y - c.y) (p.x - c.x) + φ),
      c.y + Real.sqrt ((p.x - c.x) * (p.x - c.x) + (p.y - c.y) * (p.y - c.y)) *
        Real.sin (atan2 (p.y - c.y) (p.x - c.x) + φ)⟩ : RPoint) =
    rotateAbout c φ p := by
  rw [rotateAbout, RPoint.mk.injEq]
  constructor
  · rw [polar_cos]
    ring
  · rw [polar_sin]
    ring

theorem rotatePointsUpdate_eq_map (ps : List RPoint) (px py : ℝ) :
    (rotatePointsUpdate ps px py).2 =
      ps.map (rotateAbout (centroid ps)
        (atan2 (py - (centroid ps).y) (px - (centroid ps).x) - Real.pi / 2)) := by
  simp only [rotatePointsUpdate]
  apply List.map_congr_left
  intro p _
  rw [show (atan2 (py - (centroid ps).y) (px - (centroid ps).x) - Real.pi / 2) * 180 /
      Real.pi * Real.pi / 180 =
      atan2 (py - (centroid ps).y) (px - (centroid ps).x) - Real.pi / 2 from by
    field_simp
    ring]
  exact rotate_polar (centroid ps) p _

theorem rotatePointsUpdateSpec_eq_map (oldRotation : ℝ) (ps : List RPoint) (px py : ℝ) :
    (rotatePointsUpdateSpec oldRotation ps px py).2 =
      ps.map (rotateAbout (centroid ps)
        (atan2 (py - (centroid ps).y) (px - (centroid ps).x) - Real.pi / 2 -
          oldRotation * Real.pi / 180)) := by
  simp only [rotatePointsUpdateSpec]
  apply List.map_congr_left
  intro p _
  rw [show ((atan2 (py - (centroid ps).y) (px - (centroid ps).x) - Real.pi / 2) * 180 /
      Real.pi - oldRotation) * Real.pi / 180 =
      atan2 (py - (centroid ps).y) (px - (centroid ps).x) - Real.pi / 2 -
        oldRotation * Real.pi / 180 from by
    field_simp
    ring]
  exact rotate_polar (centroid ps) p _

theorem rotateAbout_zero (c p : RPoint) : rotateAbout c 0 p = p := by
  rw [rotateAbout, RPoint.mk.injEq]
  norm_num

theorem centroid_square :
    centroid [⟨1, 0⟩, ⟨0, 1⟩, ⟨-1, 0⟩, ⟨0, -1⟩] = (⟨0, 0⟩ : RPoint) := by
  simp only [centroid, List.foldl]
  rw [RPoint.mk.injEq]
  norm_num

theorem atan2_one_zero : atan2 1 0 = Real.pi / 2 := by
  have hI : (⟨0, 1⟩ : ℂ) = Complex.I := by
    apply Complex.ext <;> simp
  show Complex.arg ⟨0, 1⟩ = Real.pi / 2
  rw [hI, Complex.arg_I]

/-- C3 (amended): on a rotation-drag update the pivot is the centroid (mean)
of the 4 points, the stored rotation angle is `atan2(p − centroid) − 90°`
(converted to degrees), and every point is moved by applying the FULL new
angle — not the delta `newAngle − oldAngle` against the previously stored
rotation — to its current polar offset from the centroid, preserving its
radius; repeated updates therefore compound each update's entire absolute
angle onto the already-rotated quadrilateral. -/
theorem rotation_amended :
    (∀ (ps : List RPoint) (px py : ℝ),
      (rotatePointsUpdate ps px py).1 =
        (atan2 (py - (centroid ps).y) (px - (centroid ps).x) - Real.pi / 2) * 180 / Real.pi ∧
      (rotatePointsUpdate ps px py).2 =
        ps.map (rotateAbout (centroid ps)
          (atan2 (py - (centroid ps).y) (px - (centroid ps).x) - Real.pi / 2))) ∧
    (∀ p0 p1 p2 p3 : RPoint, centroid [p0, p1, p2, p3] =
      ⟨(p0.x + p1.x + p2.x + p3.x) / 4, (p0.y + p1.y + p2.y + p3.y) / 4⟩) := by
  refine ⟨fun ps px py => ⟨rfl, rotatePointsUpdate_eq_map ps px py⟩, fun p0 p1 p2 p3 => ?_⟩
  simp only [centroid, List.foldl]
  rw [RPoint.mk.injEq]
  constructor <;> ring

/-- C3 counterexample: with the unit-diamond quadrilateral, stored rotation
angle 180° and the pointer directly above the centroid (new angle 0°), the
code leaves the points unchanged (it applies the full new angle, 0°), while
the claimed delta update `newAngle − oldAngle = −180°` would negate them:
the two updates produce different point lists. -/
theorem rotation_cex :
    (rotatePointsUpdate [⟨1, 0⟩, ⟨0, 1⟩, ⟨-1, 0⟩, ⟨0, -1⟩] 0 1).2 ≠
      (rotatePointsUpdateSpec 180 [⟨1, 0⟩, ⟨0, 1⟩, ⟨-1, 0⟩, ⟨0, -1⟩] 0 1).2 := by
  rw [rotatePointsUpdate_eq_map, rotatePointsUpdateSpec_eq_map, centroid_square]
  have hang : atan2 (1 - (⟨0, 0⟩ : RPoint).y) (0 - (⟨0, 0⟩ : RPoint).x) = Real.pi / 2 := by
    show atan2 (1 - 0) (0 - 0) = Real.pi / 2
    rw [show (1 : ℝ) - 0 = 1 from by norm_num, show (0 : ℝ) - 0 = 0 from by norm_num]
    exact atan2_one_zero
  rw [hang, show Real.pi / 2 - Real.pi / 2 = 0 from by ring,
    show (0 : ℝ) - 180 * Real.pi / 180 = -Real.pi from by ring]
  simp only [List.map, rotateAbout_zero]
  intro h
  have h1 := congrArg (fun l => ((l.headI : RPoint)).x) h
  simp only [List.headI, rotateAbout] at h1
  rw [Real.cos_neg, Real.sin_neg, Real.cos_pi, Real.sin_pi] at h1
  norm_num at h1
